import Mathlib

/-!
Verification development for the token-market aggregation service.

The definitions below are a shallow embedding of the TypeScript source:
JavaScript numbers are modelled as rationals (the claims under study are
algebraic, not floating-point claims), JavaScript Map objects as
insertion-ordered association lists, fallible operations as Except, and
the truthiness-based "x || y" idiom as an explicit zero/empty test.
-/

/-- Semantics of the JavaScript expression "x || y" on numbers:
x is falsy exactly when it is zero (NaN is outside the rational model). -/
def jsOrQ (x y : ℚ) : ℚ :=
  if x = 0 then y else x

/-- Semantics of "x || y" on optional strings: undefined and the empty
string are falsy. -/
def jsOrStr (x y : Option String) : Option String :=
  match x with
  | none => y
  | some s => if s = "" then y else some s

/-- Semantics of "map.get(k) || y": undefined and zero are falsy. -/
def jsOrOptQ (x : Option ℚ) (y : ℚ) : ℚ :=
  match x with
  | none => y
  | some v => if v = 0 then y else v

/-- Social links object (types/index.ts, TokenSocials). A missing key is
modelled as none. -/
structure Socials where
  twitter : Option String
  telegram : Option String
  discord : Option String
deriving DecidableEq, Repr

/-- Object spread semantics for one field of a shallow merge
of two socials objects: an incoming present key overrides. -/
def jsSpreadField (existing incoming : Option String) : Option String :=
  match incoming with
  | some v => some v
  | none => existing

/-- Shallow merge of socials objects, the embedding of the expression
(spread of existingToken.socials then newToken.socials) at aggregator.ts:234. -/
def mergeSocials (existing incoming : Socials) : Socials :=
  { twitter := jsSpreadField existing.twitter incoming.twitter
    telegram := jsSpreadField existing.telegram incoming.telegram
    discord := jsSpreadField existing.discord incoming.discord }

/-- The canonical unified Token record (types/index.ts, Token). -/
structure Token where
  token_address : String
  token_name : String
  token_ticker : String
  price_sol : ℚ
  price_usd : ℚ
  market_cap_sol : ℚ
  market_cap_usd : ℚ
  volume_sol : ℚ
  volume_usd : ℚ
  liquidity_sol : ℚ
  liquidity_usd : ℚ
  transaction_count : ℚ
  price_1hr_change : ℚ
  price_24hr_change : ℚ
  price_7d_change : ℚ
  volume_1hr : ℚ
  volume_24hr : ℚ
  volume_7d : ℚ
  protocol : String
  dex_id : String
  chain_id : String
  pair_address : String
  created_at : String
  last_updated : String
  sources : List String
  image_url : Option String
  website : Option String
  socials : Socials
deriving DecidableEq, Repr

/-- Helper for the JavaScript expression new Set(list) spread back into an
array: keeps the first occurrence of every element, in order.  The seen
accumulator holds elements already emitted. -/
def dedupAux : List String → List String → List String
  | [], _ => []
  | x :: xs, seen => if x ∈ seen then dedupAux xs seen else x :: dedupAux xs (x :: seen)

/-- Embedding of the array expression spreading new Set(existing ++ incoming)
used for the sources field at aggregator.ts:231. -/
def jsSetDedup (l : List String) : List String :=
  dedupAux l []

/-- Field-level merge of an existing and an incoming token record: the
embedding of the mergedToken object literal, aggregator.ts lines 215-235.
The fields price_7d_change and volume_7d are absent from that literal, so
the existing-record spread supplies them. -/
def mergeFields (existingToken newToken : Token) (now : String) : Token :=
  { existingToken with
    price_sol := jsOrQ newToken.price_sol existingToken.price_sol
    price_usd := jsOrQ newToken.price_usd existingToken.price_usd
    market_cap_sol := jsOrQ newToken.market_cap_sol existingToken.market_cap_sol
    market_cap_usd := jsOrQ newToken.market_cap_usd existingToken.market_cap_usd
    volume_sol := jsOrQ newToken.volume_sol existingToken.volume_sol
    volume_usd := jsOrQ newToken.volume_usd existingToken.volume_usd
    liquidity_sol := jsOrQ newToken.liquidity_sol existingToken.liquidity_sol
    liquidity_usd := jsOrQ newToken.liquidity_usd existingToken.liquidity_usd
    transaction_count := max newToken.transaction_count existingToken.transaction_count
    price_1hr_change := jsOrQ newToken.price_1hr_change existingToken.price_1hr_change
    price_24hr_change := jsOrQ newToken.price_24hr_change existingToken.price_24hr_change
    volume_1hr := jsOrQ newToken.volume_1hr existingToken.volume_1hr
    volume_24hr := jsOrQ newToken.volume_24hr existingToken.volume_24hr
    last_updated := now
    sources := jsSetDedup (existingToken.sources ++ newToken.sources)
    image_url := jsOrStr newToken.image_url existingToken.image_url
    website := jsOrStr newToken.website existingToken.website
    socials := mergeSocials existingToken.socials newToken.socials }

/-- A token record with every field zero or empty, used to build concrete
inputs. -/
def tokenZero : Token :=
  { token_address := "addr0"
    token_name := ""
    token_ticker := ""
    price_sol := 0
    price_usd := 0
    market_cap_sol := 0
    market_cap_usd := 0
    volume_sol := 0
    volume_usd := 0
    liquidity_sol := 0
    liquidity_usd := 0
    transaction_count := 0
    price_1hr_change := 0
    price_24hr_change := 0
    price_7d_change := 0
    volume_1hr := 0
    volume_24hr := 0
    volume_7d := 0
    protocol := ""
    dex_id := ""
    chain_id := ""
    pair_address := ""
    created_at := ""
    last_updated := ""
    sources := []
    image_url := none
    website := none
    socials := ⟨none, none, none⟩ }

/-- Insertion-ordered association list lookup, the embedding of
JavaScript Map.prototype.get. -/
def mapGet {α : Type} : List (String × α) → String → Option α
  | [], _ => none
  | (k2, v) :: rest, k => if k2 = k then some v else mapGet rest k

/-- Insertion-ordered association list update, the embedding of
JavaScript Map.prototype.set: update in place, else append. -/
def mapSet {α : Type} : List (String × α) → String → α → List (String × α)
  | [], k, v => [(k, v)]
  | (k2, v2) :: rest, k, v =>
    if k2 = k then (k, v) :: rest else (k2, v2) :: mapSet rest k v

/-- State owned by the aggregation engine (aggregator.ts lines 28-30). -/
structure AggState where
  tokensMap : List (String × Token)
  previousPrices : List (String × ℚ)
  previousVolumes : List (String × ℚ)
deriving DecidableEq

/-- Domain events delivered to the event sink callbacks. -/
inductive Event where
  | priceUpdate (token_address : String) (old_price new_price price_change_percent volume_24hr : ℚ)
  | volumeSpike (token_address token_ticker : String)
      (volume_change_percent current_volume previous_volume : ℚ) (time_window : String)
  | newToken (token : Token)
deriving DecidableEq

def isPriceUpdateEvent : Event → Bool
  | Event.priceUpdate _ _ _ _ _ => true
  | _ => false

def isVolumeSpikeEvent : Event → Bool
  | Event.volumeSpike _ _ _ _ _ _ => true
  | _ => false

/-- Embedding of TokenAggregator.mergeToken (aggregator.ts lines 197-273).
The three booleans model whether the onPriceUpdate, onVolumeSpike and
onNewToken callbacks are set; emitted events are returned as a list. -/
def mergeToken (st : AggState) (newToken : Token) (now : String)
    (hasPriceHandler hasVolumeHandler hasNewHandler : Bool) : AggState × List Event :=
  match mapGet st.tokensMap newToken.token_address with
  | none =>
    ({ st with tokensMap := mapSet st.tokensMap newToken.token_address newToken },
     if hasNewHandler then [Event.newToken newToken] else [])
  | some existingToken =>
    let prevPrice := jsOrOptQ (mapGet st.previousPrices newToken.token_address)
      existingToken.price_usd
    let prevVolume := jsOrOptQ (mapGet st.previousVolumes newToken.token_address)
      existingToken.volume_24hr
    let mergedToken := mergeFields existingToken newToken now
    let priceEvents : List Event :=
      if 0 < prevPrice ∧ 0 < mergedToken.price_usd then
        let priceChangePercent := ((mergedToken.price_usd - prevPrice) / prevPrice) * 100
        if 1 ≤ |priceChangePercent| ∧ hasPriceHandler then
          [Event.priceUpdate mergedToken.token_address prevPrice mergedToken.price_usd
            priceChangePercent mergedToken.volume_24hr]
        else []
      else []
    let volumeEvents : List Event :=
      if 0 < prevVolume ∧ 0 < mergedToken.volume_24hr then
        let volumeChangePercent := ((mergedToken.volume_24hr - prevVolume) / prevVolume) * 100
        if 50 ≤ volumeChangePercent ∧ hasVolumeHandler then
          [Event.volumeSpike mergedToken.token_address mergedToken.token_ticker
            volumeChangePercent mergedToken.volume_24hr prevVolume "5m"]
        else []
      else []
    ({ tokensMap := mapSet st.tokensMap newToken.token_address mergedToken
       previousPrices := mapSet st.previousPrices newToken.token_address mergedToken.price_usd
       previousVolumes := mapSet st.previousVolumes newToken.token_address mergedToken.volume_24hr },
     priceEvents ++ volumeEvents)

/-- Sequentially merging a batch of fetched tokens, as the per-adapter fetch
loops do (aggregator.ts lines 133-136, 156-159, 177-181). -/
def applyMerges (st : AggState) (batch : List Token) (now : String) : AggState :=
  batch.foldl (fun s t => (mergeToken s t now true true true).1) st

/-- Digits of a natural number in base ten, most significant first. -/
def natDigits (n : Nat) : List Nat :=
  if _h : n < 10 then [n]
  else natDigits (n / 10) ++ [n % 10]
termination_by n
decreasing_by exact Nat.div_lt_self (by omega) (by omega)

/-- Decimal rendering of a natural number, the embedding of
Number.prototype.toString for non-negative integers. -/
def natToString10 (n : Nat) : String :=
  String.mk ((natDigits n).map (fun d => Char.ofNat (48 + d)))

/-- Decimal rendering of an integer, the embedding of
Number.prototype.toString for integers. -/
def intToStringJS (v : Int) : String :=
  if v < 0 then String.mk ('-' :: (natDigits (-v).toNat).map (fun d => Char.ofNat (48 + d)))
  else natToString10 v.toNat

/-- Rendering of a possibly-NaN number (none is NaN). -/
def numToStringJS (x : Option Int) : String :=
  match x with
  | none => "NaN"
  | some v => intToStringJS v

def isDigitCh (c : Char) : Bool :=
  decide (48 ≤ c.toNat) && decide (c.toNat ≤ 57)

def jsSpaceCh (c : Char) : Bool :=
  c = ' ' || c = '\t' || c = '\n' || c = '\r'

/-- Value of a digit string read most-significant-first. -/
def digitsValC (cs : List Char) : Nat :=
  cs.foldl (fun a c => a * 10 + (c.toNat - 48)) 0

/-- Leading-digit-prefix parse: none when no leading digit exists. -/
def parseDigits (cs : List Char) : Option Nat :=
  let ds := cs.takeWhile isDigitCh
  if ds.isEmpty then none else some (digitsValC ds)

/-- Embedding of the JavaScript parseInt(s, 10) call: skip whitespace, read
an optional sign and a maximal digit prefix; none models the NaN result.
parseInt never throws, so the catch branch at aggregator.ts:566-568 is
unreachable. -/
def parseIntJS (s : String) : Option Int :=
  match s.data.dropWhile jsSpaceCh with
  | [] => none
  | c :: rest =>
    if c = '-' then (parseDigits rest).map (fun n => -(n : Int))
    else if c = '+' then (parseDigits rest).map (fun n => (n : Int))
    else (parseDigits (c :: rest)).map (fun n => (n : Int))

/-- Standard base64 alphabet, index to character. -/
def b64Char (i : Nat) : Char :=
  if i < 26 then Char.ofNat (65 + i)
  else if i < 52 then Char.ofNat (97 + (i - 26))
  else if i < 62 then Char.ofNat (48 + (i - 52))
  else if i = 62 then '+'
  else '/'

/-- Standard base64 alphabet, character to index; none for characters
outside the alphabet (Node ignores them when decoding). -/
def b64Index (c : Char) : Option Nat :=
  if 65 ≤ c.toNat ∧ c.toNat ≤ 90 then some (c.toNat - 65)
  else if 97 ≤ c.toNat ∧ c.toNat ≤ 122 then some (c.toNat - 97 + 26)
  else if 48 ≤ c.toNat ∧ c.toNat ≤ 57 then some (c.toNat - 48 + 52)
  else if c = '+' then some 62
  else if c = '/' then some 63
  else none

/-- Base64 encoding of a byte list with padding, the embedding of
Buffer.prototype.toString with base64 encoding. -/
def b64encodeBytes : List Nat → List Char
  | [] => []
  | [a] => [b64Char (a / 4), b64Char (a % 4 * 16), '=', '=']
  | [a, b] => [b64Char (a / 4), b64Char (a % 4 * 16 + b / 16), b64Char (b % 16 * 4), '=']
  | a :: b :: c :: rest =>
    b64Char (a / 4) :: b64Char (a % 4 * 16 + b / 16) :: b64Char (b % 16 * 4 + c / 64)
      :: b64Char (c % 64) :: b64encodeBytes rest

/-- Base64 decoding of a sextet list into bytes, handling a trailing group
of two or three sextets like Node does. -/
def b64decodeSextets : List Nat → List Nat
  | s1 :: s2 :: s3 :: s4 :: rest =>
    (s1 * 4 + s2 / 16) :: (s2 % 16 * 16 + s3 / 4) :: (s3 % 4 * 64 + s4)
      :: b64decodeSextets rest
  | [s1, s2] => [s1 * 4 + s2 / 16]
  | [s1, s2, s3] => [s1 * 4 + s2 / 16, s2 % 16 * 16 + s3 / 4]
  | _ => []

/-- Bytes of a string under the ASCII fragment of utf-8, which covers every
string these cursors involve. -/
def bytesOfString (s : String) : List Nat :=
  s.data.map Char.toNat

def stringOfBytes (bs : List Nat) : String :=
  String.mk (bs.map Char.ofNat)

/-- Embedding of Buffer.from(s).toString with base64 target encoding. -/
def b64encode (s : String) : String :=
  String.mk (b64encodeBytes (bytesOfString s))

/-- Embedding of Buffer.from(s, base64).toString(utf-8): characters outside
the alphabet (including padding) are skipped, never an error. -/
def b64decode (s : String) : String :=
  stringOfBytes (b64decodeSextets (s.data.filterMap b64Index))

/-- Cursor decoding as performed at aggregator.ts:565. -/
def decodeCursor (c : String) : Option Int :=
  parseIntJS (b64decode c)

/-- Cursor produced for a numeric offset, aggregator.ts:576. -/
def encodeOffset (k : Nat) : String :=
  b64encode (natToString10 k)

/-- ToIntegerOrInfinity plus the index clamping of Array.prototype.slice:
NaN becomes zero, negative indices count from the end, and indices clamp
to the array length. -/
def sliceIndex (len : Nat) (x : Option Int) : Nat :=
  match x with
  | none => 0
  | some i => if i < 0 then ((len : Int) + i).toNat else min i.toNat len

/-- Result shape of applyPagination (aggregator.ts lines 551-583). -/
structure PageResult where
  paginatedTokens : List Token
  nextCursor : Option String
  prevCursor : Option String
  hasMore : Bool
deriving DecidableEq, Repr

/-- Core of applyPagination once the cursor has been resolved to a start
index (none models NaN, which propagates through the arithmetic exactly as
in JavaScript: Math.min(NaN + limit, len) is NaN, NaN < len is false,
NaN > 0 is false, and slice treats NaN as zero). -/
def paginateCore (tokens : List Token) (limit : Nat) (startIndex : Option Int) : PageResult :=
  let endIndex : Option Int := startIndex.map (fun v => min (v + (limit : Int)) (tokens.length : Int))
  let s := sliceIndex tokens.length startIndex
  let e := sliceIndex tokens.length endIndex
  let paginatedTokens := (tokens.drop s).take (e - s)
  let hasMore : Bool :=
    match endIndex with
    | none => false
    | some v => v < (tokens.length : Int)
  let nextCursor : Option String :=
    if hasMore then some (b64encode (numToStringJS endIndex)) else none
  let prevCursor : Option String :=
    match startIndex with
    | none => none
    | some v => if 0 < v then some (b64encode (intToStringJS (max 0 (v - (limit : Int))))) else none
  ⟨paginatedTokens, nextCursor, prevCursor, hasMore⟩

/-- Embedding of applyPagination (aggregator.ts lines 551-583): an absent
or empty cursor string is falsy and leaves the start index at zero,
otherwise the cursor is base64-decoded and parsed. -/
def applyPagination (tokens : List Token) (limit : Nat) (cursor : Option String) : PageResult :=
  paginateCore tokens limit
    (match cursor with
     | none => some 0
     | some c => if c = "" then some 0 else decodeCursor c)

/-- The cursor-following protocol of claim C3: request the first page with
no cursor, then keep requesting with the returned nextCursor until it is
absent.  Fuel bounds the number of pages; none means fuel ran out before
the final page.  On success the pages are returned together with the
final hasMore flag. -/
def followPages (tokens : List Token) (limit : Nat) :
    Nat → Option String → Option (List (List Token) × Bool)
  | 0, _ => none
  | fuel + 1, cursor =>
    let r := applyPagination tokens limit cursor
    match r.nextCursor with
    | none => some ([r.paginatedTokens], r.hasMore)
    | some c => (followPages tokens limit fuel (some c)).map
        (fun p => (r.paginatedTokens :: p.1, p.2))

/-- Rate limiter state (utils, RateLimiter class): current token count and
the consecutive-failure counter. -/
structure RateLimiterState where
  tokens : ℚ
  failures : Nat
deriving DecidableEq, Repr

/-- RateLimiter constructor: bucket starts full with zero failures. -/
def rateLimiterCreate (maxTokens : ℚ) : RateLimiterState :=
  ⟨maxTokens, 0⟩

/-- Embedding of RateLimiter.reportSuccess. -/
def reportSuccess (st : RateLimiterState) : RateLimiterState :=
  { st with failures := 0 }

/-- Embedding of RateLimiter.reportFailure. -/
def reportFailure (st : RateLimiterState) : RateLimiterState :=
  { st with failures := st.failures + 1 }

/-- Wait performed by one call of RateLimiter.waitForToken after refill:
none when a token is available (no wait, token consumed); otherwise the
backoff delay in milliseconds computed at utils rateLimiter line 253. -/
def waitForTokenDelay (refillRate : ℚ) (st : RateLimiterState) : Option ℚ :=
  if 1 ≤ st.tokens then none
  else some (1 / refillRate * 1000 * 2 ^ min st.failures 5)

/-- Embedding of updateSolPrice (aggregator.ts lines 74-89): the fetched
value replaces the stored one only when it is truthy and positive; a fetch
failure or an absent price keeps the previous value. -/
def updateSolPrice (current : ℚ) (fetched : Option ℚ) : ℚ :=
  match fetched with
  | none => current
  | some p => if p ≠ 0 ∧ 0 < p then p else current

/-- One adapter fetch inside refreshAllData: a succeeding adapter merges
each of its transformed tokens into the canonical map; a failing adapter
merges nothing and its rejection is captured (Promise.allSettled). -/
def fetchOutcome (st : AggState) (result : Except String (List Token)) (now : String) :
    AggState × Except String Unit :=
  match result with
  | Except.ok batch => (applyMerges st batch now, Except.ok ())
  | Except.error msg => (st, Except.error msg)

def isFulfilled : Except String Unit → Bool
  | Except.ok _ => true
  | Except.error _ => false

def settledError : Except String Unit → Option String
  | Except.ok _ => none
  | Except.error m => some m

/-- Embedding of refreshAllData (aggregator.ts lines 92-127): all three
adapter outcomes are captured independently; the function itself never
produces an error value - failures only lower the success count and are
collected into the log list. -/
def refreshAllData (st : AggState) (r1 r2 r3 : Except String (List Token)) (now : String) :
    Except String (AggState × Nat × List String) :=
  let p1 := fetchOutcome st r1 now
  let p2 := fetchOutcome p1.1 r2 now
  let p3 := fetchOutcome p2.1 r3 now
  let outcomes := [p1.2, p2.2, p3.2]
  Except.ok (p3.1, (outcomes.filter isFulfilled).length, outcomes.filterMap settledError)

/-- Sample record holding one source, used as a concrete witness input. -/
def tokenW : Token :=
  { tokenZero with token_address := "addrW", sources := ["srcA"] }

/-- Sample incoming record for the same address from another source. -/
def tokenW2 : Token :=
  { tokenZero with token_address := "addrW", sources := ["srcB"] }

/-- Sample aggregator state containing tokenW. -/
def stW : AggState :=
  ⟨[("addrW", tokenW)], [], []⟩

/-- Existing record for the C2 witness: price 100, 24h volume 100. -/
def tokenE2 : Token :=
  { tokenZero with token_address := "a2", price_usd := 100, volume_24hr := 100 }

/-- Incoming record for the C2 witness: price 101 (a move of exactly one
percent) and 24h volume 150 (growth of exactly fifty percent). -/
def tokenI2 : Token :=
  { tokenZero with token_address := "a2", price_usd := 101, volume_24hr := 150 }

/-- Aggregator state for the C2 witness. -/
def stW2 : AggState :=
  ⟨[("a2", tokenE2)], [], []⟩

/-- Sample records for pagination witnesses. -/
def tokenA3 : Token := { tokenZero with token_address := "pA" }

def tokenB3 : Token := { tokenZero with token_address := "pB" }

def tokenC3 : Token := { tokenZero with token_address := "pC" }

/-- Membership in the dedup helper. -/
theorem mem_dedupAux (x : String) :
    ∀ (l seen : List String), x ∈ dedupAux l seen ↔ x ∈ l ∧ x ∉ seen := by
  intro l
  induction l with
  | nil => intro seen; simp [dedupAux]
  | cons y ys ih =>
    intro seen
    by_cases hy : y ∈ seen
    · simp only [dedupAux, if_pos hy, ih, List.mem_cons]
      constructor
      · rintro ⟨h1, h2⟩
        exact ⟨Or.inr h1, h2⟩
      · rintro ⟨h1 | h1, h2⟩
        · subst h1; exact absurd hy h2
        · exact ⟨h1, h2⟩
    · simp only [dedupAux, if_neg hy, List.mem_cons, ih]
      constructor
      · rintro (rfl | ⟨h1, h2⟩)
        · exact ⟨Or.inl rfl, hy⟩
        · exact ⟨Or.inr h1, fun hx => h2 (Or.inr hx)⟩
      · rintro ⟨h1 | h1, h2⟩
        · exact Or.inl h1
        · by_cases hxy : x = y
          · exact Or.inl hxy
          · refine Or.inr ⟨h1, fun hx => ?_⟩
            rcases hx with h | h
            · exact hxy h
            · exact h2 h

/-- Membership in jsSetDedup is membership in the underlying list. -/
theorem mem_jsSetDedup (x : String) (l : List String) :
    x ∈ jsSetDedup l ↔ x ∈ l := by
  simp [jsSetDedup, mem_dedupAux]

theorem mapGet_mapSet_self {α : Type} (m : List (String × α)) (k : String) (v : α) :
    mapGet (mapSet m k v) k = some v := by
  induction m with
  | nil => simp [mapGet, mapSet]
  | cons p rest ih =>
    obtain ⟨k2, v2⟩ := p
    by_cases h : k2 = k
    · simp [mapSet, mapGet, h]
    · simp [mapSet, mapGet, h, ih]

theorem mapGet_mapSet_other {α : Type} (m : List (String × α)) (k k2 : String) (v : α)
    (h : k2 ≠ k) : mapGet (mapSet m k v) k2 = mapGet m k2 := by
  have hk : ¬ (k = k2) := fun hk => h hk.symm
  induction m with
  | nil => simp [mapGet, mapSet, hk]
  | cons p rest ih =>
    obtain ⟨k3, v3⟩ := p
    by_cases h3 : k3 = k
    · have h32 : ¬ (k3 = k2) := by rw [h3]; exact hk
      simp [mapSet, mapGet, h3, hk, h32]
    · simp [mapSet, mapGet, h3, ih]

/-- Claim C1 fails on the merge of the volume_7d field: it is absent from
the merged-object literal, so a non-zero incoming value is dropped.  With
existing volume_7d 0 and incoming volume_7d 5, the merged value is 0,
not the incoming 5 required by the prefer-nonzero law. -/
theorem mergeFields_volume7d_counterexample :
    (mergeFields tokenZero { tokenZero with volume_7d := 5 } "t1").volume_7d = 0 ∧
    ({ tokenZero with volume_7d := 5 } : Token).volume_7d = 5 ∧
    ((5 : ℚ) ≠ 0) ∧
    (mergeFields tokenZero { tokenZero with volume_7d := 5 } "t1").volume_7d ≠
      ({ tokenZero with volume_7d := 5 } : Token).volume_7d := by
  refine ⟨rfl, rfl, by norm_num, by norm_num [mergeFields, tokenZero]⟩

/-- Claim C1 (amended): the prefer-nonzero merge law holds for the twelve
numeric fields named in the merged-object literal (price_sol, price_usd,
market_cap_sol, market_cap_usd, volume_sol, volume_usd, liquidity_sol,
liquidity_usd, price_1hr_change, price_24hr_change, volume_1hr,
volume_24hr); the remaining numeric fields other than transaction_count,
namely price_7d_change and volume_7d, always keep the existing value. -/
theorem mergeFields_prefer_nonzero (e t : Token) (now : String) :
    (mergeFields e t now).price_sol = (if t.price_sol = 0 then e.price_sol else t.price_sol) ∧
    (mergeFields e t now).price_usd = (if t.price_usd = 0 then e.price_usd else t.price_usd) ∧
    (mergeFields e t now).market_cap_sol
      = (if t.market_cap_sol = 0 then e.market_cap_sol else t.market_cap_sol) ∧
    (mergeFields e t now).market_cap_usd
      = (if t.market_cap_usd = 0 then e.market_cap_usd else t.market_cap_usd) ∧
    (mergeFields e t now).volume_sol = (if t.volume_sol = 0 then e.volume_sol else t.volume_sol) ∧
    (mergeFields e t now).volume_usd = (if t.volume_usd = 0 then e.volume_usd else t.volume_usd) ∧
    (mergeFields e t now).liquidity_sol
      = (if t.liquidity_sol = 0 then e.liquidity_sol else t.liquidity_sol) ∧
    (mergeFields e t now).liquidity_usd
      = (if t.liquidity_usd = 0 then e.liquidity_usd else t.liquidity_usd) ∧
    (mergeFields e t now).price_1hr_change
      = (if t.price_1hr_change = 0 then e.price_1hr_change else t.price_1hr_change) ∧
    (mergeFields e t now).price_24hr_change
      = (if t.price_24hr_change = 0 then e.price_24hr_change else t.price_24hr_change) ∧
    (mergeFields e t now).volume_1hr = (if t.volume_1hr = 0 then e.volume_1hr else t.volume_1hr) ∧
    (mergeFields e t now).volume_24hr
      = (if t.volume_24hr = 0 then e.volume_24hr else t.volume_24hr) ∧
    (mergeFields e t now).price_7d_change = e.price_7d_change ∧
    (mergeFields e t now).volume_7d = e.volume_7d :=
  ⟨rfl, rfl, rfl, rfl, rfl, rfl, rfl, rfl, rfl, rfl, rfl, rfl, rfl, rfl⟩

/-- Claim C6: the merged transaction count is the maximum of the existing
and incoming transaction counts (aggregator.ts line 225). -/
theorem mergeFields_transaction_count (e t : Token) (now : String) :
    (mergeFields e t now).transaction_count = max e.transaction_count t.transaction_count :=
  max_comm t.transaction_count e.transaction_count

theorem jsOrQ_self (x : ℚ) : jsOrQ x x = x := by
  by_cases h : x = 0 <;> simp [jsOrQ, h]

theorem jsOrQ_absorb (x y : ℚ) : jsOrQ x (jsOrQ x y) = jsOrQ x y := by
  by_cases h : x = 0 <;> simp [jsOrQ, h]

theorem jsOrStr_self (x : Option String) : jsOrStr x x = x := by
  cases x with
  | none => rfl
  | some s => by_cases h : s = "" <;> simp [jsOrStr, h]

theorem jsOrStr_absorb (x y : Option String) : jsOrStr x (jsOrStr x y) = jsOrStr x y := by
  cases x with
  | none => rfl
  | some s => by_cases h : s = "" <;> simp [jsOrStr, h]

theorem max_absorb (a b : ℚ) : max a (max a b) = max a b := by
  rw [← max_assoc, max_self]

theorem jsSpreadField_self (x : Option String) : jsSpreadField x x = x := by
  cases x <;> rfl

theorem jsSpreadField_absorb (e i : Option String) :
    jsSpreadField (jsSpreadField e i) i = jsSpreadField e i := by
  cases i <;> rfl

theorem mergeSocials_self (s : Socials) : mergeSocials s s = s := by
  cases s
  simp [mergeSocials, jsSpreadField_self]

theorem mergeSocials_absorb (e i : Socials) :
    mergeSocials (mergeSocials e i) i = mergeSocials e i := by
  simp [mergeSocials, jsSpreadField_absorb]

/-- Merging a token with itself changes only last_updated and rebuilds the
sources list (as a deduplicated copy). -/
theorem mergeFields_self (t : Token) (now : String) :
    mergeFields t t now
      = { t with last_updated := now, sources := jsSetDedup (t.sources ++ t.sources) } := by
  simp [mergeFields, jsOrQ_self, jsOrStr_self, mergeSocials_self, max_self]

/-- Re-merging the same incoming token is absorbed up to last_updated and
the deduplicated sources list. -/
theorem mergeFields_again (e t : Token) (now1 now2 : String) :
    mergeFields (mergeFields e t now1) t now2
      = { mergeFields e t now1 with
          last_updated := now2
          sources := jsSetDedup ((mergeFields e t now1).sources ++ t.sources) } := by
  simp [mergeFields, jsOrQ_absorb, jsOrStr_absorb, mergeSocials_absorb, max_absorb]

/-- A record present before a merge is still present afterwards, and keeps
every source it had. -/
theorem mergeToken_sources_preserved (st : AggState) (t : Token) (now : String)
    (addr s : String) (r : Token)
    (hr : mapGet st.tokensMap addr = some r) (hs : s ∈ r.sources) :
    ∃ r2, mapGet (mergeToken st t now true true true).1.tokensMap addr = some r2
      ∧ s ∈ r2.sources := by
  cases hmatch : mapGet st.tokensMap t.token_address with
  | none =>
    by_cases ha : addr = t.token_address
    · rw [ha] at hr
      exact Option.noConfusion (hr.symm.trans hmatch)
    · refine ⟨r, ?_, hs⟩
      simp only [mergeToken, hmatch]
      exact (mapGet_mapSet_other _ _ _ _ ha).trans hr
  | some e =>
    by_cases ha : addr = t.token_address
    · subst ha
      have hre : e = r := by
        have := hmatch.symm.trans hr
        injection this
      subst hre
      refine ⟨mergeFields e t now, ?_, ?_⟩
      · simp only [mergeToken, hmatch]
        exact mapGet_mapSet_self _ _ _
      · show s ∈ jsSetDedup (e.sources ++ t.sources)
        rw [mem_jsSetDedup]
        exact List.mem_append.mpr (Or.inl hs)
    · refine ⟨r, ?_, hs⟩
      simp only [mergeToken, hmatch]
      exact (mapGet_mapSet_other _ _ _ _ ha).trans hr

/-- Source membership survives any batch of merges. -/
theorem applyMerges_sources_preserved (batch : List Token) :
    ∀ (st : AggState) (now addr s : String),
      (∃ r, mapGet st.tokensMap addr = some r ∧ s ∈ r.sources) →
      ∃ r2, mapGet (applyMerges st batch now).tokensMap addr = some r2 ∧ s ∈ r2.sources := by
  induction batch with
  | nil =>
    intro st now addr s h
    simpa [applyMerges] using h
  | cons t ts ih =>
    rintro st now addr s ⟨r, hr, hs⟩
    obtain ⟨r2, hr2, hs2⟩ := mergeToken_sources_preserved st t now addr s r hr hs
    have hfold : applyMerges st (t :: ts) now
        = applyMerges (mergeToken st t now true true true).1 ts now := rfl
    rw [hfold]
    exact ih _ now addr s ⟨r2, hr2, hs2⟩

/-- Claim C5: the merged sources are the membership-wise union of the
existing and incoming sources, and consequently a source contributed to a
record is never lost across any later sequence of merges. -/
theorem merged_sources_union_and_monotone :
    (∀ (e t : Token) (now s : String),
      s ∈ (mergeFields e t now).sources ↔ s ∈ e.sources ∨ s ∈ t.sources) ∧
    (∀ (st : AggState) (batch : List Token) (now addr s : String),
      (∃ r, mapGet st.tokensMap addr = some r ∧ s ∈ r.sources) →
      ∃ r2, mapGet (applyMerges st batch now).tokensMap addr = some r2 ∧ s ∈ r2.sources) := by
  constructor
  · intro e t now s
    show s ∈ jsSetDedup (e.sources ++ t.sources) ↔ _
    rw [mem_jsSetDedup, List.mem_append]
  · intro st batch now addr s h
    exact applyMerges_sources_preserved batch st now addr s h

/-- Witness for claim C5 at a concrete input: after merging an incoming
record from source srcB, the record still carries srcA. -/
theorem merged_sources_union_and_monotone_witness :
    ∃ r2, mapGet (applyMerges stW [tokenW2] "n").tokensMap "addrW" = some r2
      ∧ "srcA" ∈ r2.sources :=
  merged_sources_union_and_monotone.2 stW [tokenW2] "n" "addrW" "srcA"
    ⟨tokenW, by decide, by decide⟩

/-- After merging into a fresh address, the canonical map holds the token
inserted as-is. -/
theorem mergeToken_tokensMap_of_none (st : AggState) (t : Token) (now : String)
    (h : mapGet st.tokensMap t.token_address = none) :
    (mergeToken st t now true true true).1.tokensMap
      = mapSet st.tokensMap t.token_address t := by
  simp [mergeToken, h]

/-- After merging into an existing address, the canonical map holds the
field-merged record. -/
theorem mergeToken_tokensMap_of_some (st : AggState) (t : Token) (now : String) (e : Token)
    (h : mapGet st.tokensMap t.token_address = some e) :
    (mergeToken st t now true true true).1.tokensMap
      = mapSet st.tokensMap t.token_address (mergeFields e t now) := by
  simp [mergeToken, h]

/-- Claim C9: merging the same incoming token twice in a row leaves the
canonical record unchanged except for last_updated, with sources equal as
a set. -/
theorem mergeToken_idempotent_on_equal_input (st : AggState) (t : Token) (now1 now2 : String) :
    ∃ r1 r2,
      mapGet (mergeToken st t now1 true true true).1.tokensMap t.token_address = some r1 ∧
      mapGet (mergeToken (mergeToken st t now1 true true true).1 t now2 true true true).1.tokensMap
        t.token_address = some r2 ∧
      r2 = { r1 with last_updated := now2, sources := r2.sources } ∧
      (∀ s, s ∈ r2.sources ↔ s ∈ r1.sources) := by
  cases hmatch : mapGet st.tokensMap t.token_address with
  | none =>
    have h1 := mergeToken_tokensMap_of_none st t now1 hmatch
    have hg1 : mapGet (mergeToken st t now1 true true true).1.tokensMap t.token_address
        = some t := by
      rw [h1]; exact mapGet_mapSet_self _ _ _
    have h2 := mergeToken_tokensMap_of_some (mergeToken st t now1 true true true).1 t now2 t hg1
    refine ⟨t, mergeFields t t now2, hg1, ?_, ?_, ?_⟩
    · rw [h2]; exact mapGet_mapSet_self _ _ _
    · rw [mergeFields_self]
    · intro s
      show s ∈ (mergeFields t t now2).sources ↔ _
      rw [mergeFields_self]
      show s ∈ jsSetDedup (t.sources ++ t.sources) ↔ _
      rw [mem_jsSetDedup, List.mem_append, or_self]
  | some e =>
    have h1 := mergeToken_tokensMap_of_some st t now1 e hmatch
    have hg1 : mapGet (mergeToken st t now1 true true true).1.tokensMap t.token_address
        = some (mergeFields e t now1) := by
      rw [h1]; exact mapGet_mapSet_self _ _ _
    have h2 := mergeToken_tokensMap_of_some (mergeToken st t now1 true true true).1 t now2
      (mergeFields e t now1) hg1
    refine ⟨mergeFields e t now1, mergeFields (mergeFields e t now1) t now2, hg1, ?_, ?_, ?_⟩
    · rw [h2]; exact mapGet_mapSet_self _ _ _
    · rw [mergeFields_again]
    · intro s
      show s ∈ (mergeFields (mergeFields e t now1) t now2).sources ↔ _
      rw [mergeFields_again]
      show s ∈ jsSetDedup ((mergeFields e t now1).sources ++ t.sources) ↔ _
      rw [mem_jsSetDedup, List.mem_append]
      constructor
      · rintro (h | h)
        · exact h
        · show s ∈ jsSetDedup (e.sources ++ t.sources)
          rw [mem_jsSetDedup, List.mem_append]
          exact Or.inr h
      · exact Or.inl

/-- A price-update event is emitted during a merge into an existing record
exactly when the previous observed price and the merged price are positive
and the percent move reaches the one-percent threshold. -/
theorem mergeToken_any_priceUpdate (st : AggState) (t : Token) (now : String) (e : Token)
    (he : mapGet st.tokensMap t.token_address = some e) :
    ((mergeToken st t now true true true).2.any isPriceUpdateEvent = true)
      ↔ (0 < jsOrOptQ (mapGet st.previousPrices t.token_address) e.price_usd
          ∧ 0 < (mergeFields e t now).price_usd
          ∧ 1 ≤ |((mergeFields e t now).price_usd
                - jsOrOptQ (mapGet st.previousPrices t.token_address) e.price_usd)
               / jsOrOptQ (mapGet st.previousPrices t.token_address) e.price_usd * 100|) := by
  simp only [mergeToken, he, and_true, List.any_append, Bool.or_eq_true]
  split_ifs with h1 h2 h3 h4 h3 h4 <;>
    simp_all [isPriceUpdateEvent, isVolumeSpikeEvent]

/-- A volume-spike event is emitted during a merge into an existing record
exactly when the previous observed volume and the merged volume are
positive and the growth reaches the fifty-percent threshold. -/
theorem mergeToken_any_volumeSpike (st : AggState) (t : Token) (now : String) (e : Token)
    (he : mapGet st.tokensMap t.token_address = some e) :
    ((mergeToken st t now true true true).2.any isVolumeSpikeEvent = true)
      ↔ (0 < jsOrOptQ (mapGet st.previousVolumes t.token_address) e.volume_24hr
          ∧ 0 < (mergeFields e t now).volume_24hr
          ∧ 50 ≤ ((mergeFields e t now).volume_24hr
                - jsOrOptQ (mapGet st.previousVolumes t.token_address) e.volume_24hr)
               / jsOrOptQ (mapGet st.previousVolumes t.token_address) e.volume_24hr * 100) := by
  simp only [mergeToken, he, and_true, List.any_append, Bool.or_eq_true]
  split_ifs with h1 h2 h3 h4 h3 h4 <;>
    simp_all [isPriceUpdateEvent, isVolumeSpikeEvent]

/-- Claim C2: during a merge of an existing record, with positive previous
observed price p and positive merged fiat price q, a price-update event is
emitted iff the absolute percent move reaches exactly one percent; with
positive previous observed volume v and positive merged volume w, a
volume-spike event is emitted iff the growth reaches exactly fifty
percent (handlers set). -/
theorem mergeToken_event_thresholds (st : AggState) (t : Token) (now : String) (e : Token)
    (he : mapGet st.tokensMap t.token_address = some e) :
    (0 < jsOrOptQ (mapGet st.previousPrices t.token_address) e.price_usd →
     0 < (mergeFields e t now).price_usd →
     (((mergeToken st t now true true true).2.any isPriceUpdateEvent) = true ↔
       1 ≤ |((mergeFields e t now).price_usd
              - jsOrOptQ (mapGet st.previousPrices t.token_address) e.price_usd)
             / jsOrOptQ (mapGet st.previousPrices t.token_address) e.price_usd * 100|)) ∧
    (0 < jsOrOptQ (mapGet st.previousVolumes t.token_address) e.volume_24hr →
     0 < (mergeFields e t now).volume_24hr →
     (((mergeToken st t now true true true).2.any isVolumeSpikeEvent) = true ↔
       50 ≤ ((mergeFields e t now).volume_24hr
              - jsOrOptQ (mapGet st.previousVolumes t.token_address) e.volume_24hr)
             / jsOrOptQ (mapGet st.previousVolumes t.token_address) e.volume_24hr * 100)) := by
  constructor
  · intro hp hq
    rw [mergeToken_any_priceUpdate st t now e he]
    constructor
    · rintro ⟨_, _, h⟩
      exact h
    · intro h
      exact ⟨hp, hq, h⟩
  · intro hv hw
    rw [mergeToken_any_volumeSpike st t now e he]
    constructor
    · rintro ⟨_, _, h⟩
      exact h
    · intro h
      exact ⟨hv, hw, h⟩

/-- Witness for claim C2: a move of exactly one percent emits a
price-update event and a growth of exactly fifty percent emits a
volume-spike event. -/
theorem mergeToken_event_thresholds_witness :
    ((mergeToken stW2 tokenI2 "n" true true true).2.any isPriceUpdateEvent) = true ∧
    ((mergeToken stW2 tokenI2 "n" true true true).2.any isVolumeSpikeEvent) = true :=
  ⟨((mergeToken_event_thresholds stW2 tokenI2 "n" tokenE2 (by decide)).1
      (by decide) (by decide)).mpr
      (by norm_num [mergeFields, tokenE2, tokenI2, tokenZero, jsOrQ, jsOrOptQ, mapGet, stW2]),
   ((mergeToken_event_thresholds stW2 tokenI2 "n" tokenE2 (by decide)).2
      (by decide) (by decide)).mpr
      (by norm_num [mergeFields, tokenE2, tokenI2, tokenZero, jsOrQ, jsOrOptQ, mapGet, stW2])⟩

/-- Claim C7: when the bucket is empty, one waitForToken round waits
(1/R) * 1000 * 2^min(failures, 5) milliseconds before re-checking;
reportSuccess resets the failure counter, reportFailure increments it;
and after exactly three consecutive failures the wait is eight times the
base per-unit interval. -/
theorem rateLimiter_backoff :
    (∀ st : RateLimiterState, (reportFailure st).failures = st.failures + 1) ∧
    (∀ st : RateLimiterState, (reportSuccess st).failures = 0) ∧
    (∀ (refillRate : ℚ) (st : RateLimiterState), st.tokens < 1 →
      waitForTokenDelay refillRate st
        = some (1 / refillRate * 1000 * 2 ^ min st.failures 5)) ∧
    (∀ (refillRate : ℚ) (st : RateLimiterState), st.tokens < 1 →
      waitForTokenDelay refillRate
          (reportFailure (reportFailure (reportFailure (reportSuccess st))))
        = some (1 / refillRate * 1000 * 8)) := by
  refine ⟨fun st => rfl, fun st => rfl, ?_, ?_⟩
  · intro refillRate st h
    rw [waitForTokenDelay, if_neg (not_le.mpr h)]
  · intro refillRate st h
    rw [waitForTokenDelay]
    rw [if_neg (not_le.mpr (show (reportFailure (reportFailure (reportFailure
      (reportSuccess st)))).tokens < 1 from h))]
    norm_num [reportFailure, reportSuccess]

/-- Witness for claim C7 at refill rate 2 and an empty bucket with three
accumulated failures: the delay is eight times the 500 millisecond base
interval. -/
theorem rateLimiter_backoff_witness :
    (0 : ℚ) < 1 ∧
    waitForTokenDelay 2
        (reportFailure (reportFailure (reportFailure (reportSuccess ⟨0, 7⟩))))
      = some (1 / 2 * 1000 * 8) :=
  ⟨by norm_num, rateLimiter_backoff.2.2.2 2 ⟨0, 7⟩ (by norm_num)⟩

/-- Claim C10: the reference SOL price starts at 200 and updateSolPrice
only ever replaces it by a strictly positive fetched value, so it stays
strictly positive across any sequence of refresh outcomes; every division
by it in the adapter transforms is therefore a division by a positive
number. -/
theorem solPrice_always_positive (updates : List (Option ℚ)) :
    0 < updates.foldl updateSolPrice 200 := by
  suffices h : ∀ (cur : ℚ), 0 < cur → 0 < updates.foldl updateSolPrice cur by
    exact h 200 (by norm_num)
  induction updates with
  | nil => intro cur hc; simpa using hc
  | cons u us ih =>
    intro cur hc
    refine ih (updateSolPrice cur u) ?_
    cases u with
    | none => simpa [updateSolPrice] using hc
    | some p =>
      by_cases hp : p ≠ 0 ∧ 0 < p
      · simpa [updateSolPrice, hp] using hp.2
      · simpa [updateSolPrice, hp] using hc

/-- An address present in the canonical map stays present across a merge. -/
theorem mergeToken_preserves_address (st : AggState) (t : Token) (now : String)
    (addr : String) (r : Token) (hr : mapGet st.tokensMap addr = some r) :
    ∃ r2, mapGet (mergeToken st t now true true true).1.tokensMap addr = some r2 := by
  cases hmatch : mapGet st.tokensMap t.token_address with
  | none =>
    by_cases ha : addr = t.token_address
    · rw [ha] at hr
      exact Option.noConfusion (hr.symm.trans hmatch)
    · rw [mergeToken_tokensMap_of_none st t now hmatch]
      exact ⟨r, (mapGet_mapSet_other _ _ _ _ ha).trans hr⟩
  | some e =>
    by_cases ha : addr = t.token_address
    · rw [ha, mergeToken_tokensMap_of_some st t now e hmatch]
      exact ⟨mergeFields e t now, mapGet_mapSet_self _ _ _⟩
    · rw [mergeToken_tokensMap_of_some st t now e hmatch]
      exact ⟨r, (mapGet_mapSet_other _ _ _ _ ha).trans hr⟩

/-- Merging a token makes its address present in the canonical map. -/
theorem mergeToken_inserts_address (st : AggState) (t : Token) (now : String) :
    ∃ r, mapGet (mergeToken st t now true true true).1.tokensMap t.token_address = some r := by
  cases hmatch : mapGet st.tokensMap t.token_address with
  | none =>
    rw [mergeToken_tokensMap_of_none st t now hmatch]
    exact ⟨t, mapGet_mapSet_self _ _ _⟩
  | some e =>
    rw [mergeToken_tokensMap_of_some st t now e hmatch]
    exact ⟨mergeFields e t now, mapGet_mapSet_self _ _ _⟩

/-- An address present in the canonical map stays present across a batch
of merges. -/
theorem applyMerges_preserves_address (batch : List Token) :
    ∀ (st : AggState) (now addr : String),
      (∃ r, mapGet st.tokensMap addr = some r) →
      ∃ r2, mapGet (applyMerges st batch now).tokensMap addr = some r2 := by
  induction batch with
  | nil =>
    intro st now addr h
    simpa [applyMerges] using h
  | cons t ts ih =>
    rintro st now addr ⟨r, hr⟩
    obtain ⟨r2, hr2⟩ := mergeToken_preserves_address st t now addr r hr
    exact ih _ now addr ⟨r2, hr2⟩

/-- Every token of a merged batch has its address present afterwards. -/
theorem applyMerges_contains_batch (batch : List Token) :
    ∀ (st : AggState) (now : String) (t : Token), t ∈ batch →
      ∃ r, mapGet (applyMerges st batch now).tokensMap t.token_address = some r := by
  induction batch with
  | nil =>
    intro st now t ht
    exact absurd ht (List.not_mem_nil t)
  | cons u us ih =>
    intro st now t ht
    rcases List.mem_cons.mp ht with rfl | ht
    · obtain ⟨r, hr⟩ := mergeToken_inserts_address st t now
      have hfold : applyMerges st (t :: us) now
          = applyMerges (mergeToken st t now true true true).1 us now := rfl
      rw [hfold]
      exact applyMerges_preserves_address us _ now t.token_address ⟨r, hr⟩
    · exact ih _ now t ht

/-- Presence of an address survives one adapter outcome, whether the
adapter succeeded or failed. -/
theorem fetchOutcome_preserves_address (st : AggState) (result : Except String (List Token))
    (now addr : String) (h : ∃ r, mapGet st.tokensMap addr = some r) :
    ∃ r2, mapGet (fetchOutcome st result now).1.tokensMap addr = some r2 := by
  cases result with
  | ok batch => exact applyMerges_preserves_address batch st now addr h
  | error m => exact h

/-- Claim C8: refreshAllData completes with an ok value for every
combination of adapter outcomes; every record produced by a succeeding
adapter is present in the canonical set afterwards; and each of the three
adapters contributes either to the success count or to the logged error
list, never to a thrown error. -/
theorem refreshAllData_never_throws (st : AggState) (r1 r2 r3 : Except String (List Token))
    (now : String) :
    ∃ st2 n errs,
      refreshAllData st r1 r2 r3 now = Except.ok (st2, n, errs) ∧
      (∀ batch, r1 = Except.ok batch →
        ∀ t ∈ batch, ∃ r, mapGet st2.tokensMap t.token_address = some r) ∧
      (∀ batch, r2 = Except.ok batch →
        ∀ t ∈ batch, ∃ r, mapGet st2.tokensMap t.token_address = some r) ∧
      (∀ batch, r3 = Except.ok batch →
        ∀ t ∈ batch, ∃ r, mapGet st2.tokensMap t.token_address = some r) ∧
      n + errs.length = 3 := by
  refine ⟨(fetchOutcome (fetchOutcome (fetchOutcome st r1 now).1 r2 now).1 r3 now).1,
    _, _, rfl, ?_, ?_, ?_, ?_⟩
  · intro batch hb t ht
    subst hb
    have h1 : ∃ r, mapGet (fetchOutcome st (Except.ok batch) now).1.tokensMap t.token_address
        = some r := applyMerges_contains_batch batch st now t ht
    exact fetchOutcome_preserves_address _ r3 now _
      (fetchOutcome_preserves_address _ r2 now _ h1)
  · intro batch hb t ht
    subst hb
    have h1 : ∃ r, mapGet (fetchOutcome (fetchOutcome st r1 now).1 (Except.ok batch) now).1.tokensMap
        t.token_address = some r := applyMerges_contains_batch batch _ now t ht
    exact fetchOutcome_preserves_address _ r3 now _ h1
  · intro batch hb t ht
    subst hb
    exact applyMerges_contains_batch batch _ now t ht
  · rcases r1 with b1 | m1 <;> rcases r2 with b2 | m2 <;> rcases r3 with b3 | m3 <;> rfl

/-- Witness for claim C8 with one succeeding adapter and two failing ones:
the refresh returns ok and the surviving record is in the canonical set. -/
theorem refreshAllData_never_throws_witness :
    ∃ st2 n errs,
      refreshAllData ⟨[], [], []⟩ (Except.ok [tokenW]) (Except.error "boom")
          (Except.error "down") "n"
        = Except.ok (st2, n, errs) ∧ ∃ r, mapGet st2.tokensMap "addrW" = some r := by
  obtain ⟨st2, n, errs, heq, h1, _, _, _⟩ :=
    refreshAllData_never_throws ⟨[], [], []⟩ (Except.ok [tokenW]) (Except.error "boom")
      (Except.error "down") "n"
  refine ⟨st2, n, errs, heq, ?_⟩
  exact h1 [tokenW] rfl tokenW (by decide)

theorem b64Index_b64Char : ∀ i, i < 64 → b64Index (b64Char i) = some i := by decide

theorem b64Index_pad : b64Index '=' = none := by decide

theorem b64encodeBytes_ne_nil : ∀ bs : List Nat, bs ≠ [] → b64encodeBytes bs ≠ [] := by
  intro bs h
  match bs with
  | [] => exact absurd rfl h
  | [a] => simp [b64encodeBytes]
  | [a, b] => simp [b64encodeBytes]
  | a :: b :: c :: rest => simp [b64encodeBytes]

/-- Decoding inverts encoding on byte lists (bytes below 256). -/
theorem b64_roundtrip : ∀ bs : List Nat, (∀ b ∈ bs, b < 256) →
    b64decodeSextets ((b64encodeBytes bs).filterMap b64Index) = bs
  | [], _ => rfl
  | [a], h => by
    have ha : a < 256 := h a (by simp)
    have h1 : b64Index (b64Char (a / 4)) = some (a / 4) := b64Index_b64Char _ (by omega)
    have h2 : b64Index (b64Char (a % 4 * 16)) = some (a % 4 * 16) :=
      b64Index_b64Char _ (by omega)
    simp [b64encodeBytes, List.filterMap_cons, h1, h2, b64Index_pad, b64decodeSextets]
    omega
  | [a, b], h => by
    have ha : a < 256 := h a (by simp)
    have hb : b < 256 := h b (by simp)
    have h1 : b64Index (b64Char (a / 4)) = some (a / 4) := b64Index_b64Char _ (by omega)
    have h2 : b64Index (b64Char (a % 4 * 16 + b / 16)) = some (a % 4 * 16 + b / 16) :=
      b64Index_b64Char _ (by omega)
    have h3 : b64Index (b64Char (b % 16 * 4)) = some (b % 16 * 4) :=
      b64Index_b64Char _ (by omega)
    simp [b64encodeBytes, List.filterMap_cons, h1, h2, h3, b64Index_pad, b64decodeSextets]
    omega
  | a :: b :: c :: rest, h => by
    have ha : a < 256 := h a (by simp)
    have hb : b < 256 := h b (by simp)
    have hc : c < 256 := h c (by simp)
    have h1 : b64Index (b64Char (a / 4)) = some (a / 4) := b64Index_b64Char _ (by omega)
    have h2 : b64Index (b64Char (a % 4 * 16 + b / 16)) = some (a % 4 * 16 + b / 16) :=
      b64Index_b64Char _ (by omega)
    have h3 : b64Index (b64Char (b % 16 * 4 + c / 64)) = some (b % 16 * 4 + c / 64) :=
      b64Index_b64Char _ (by omega)
    have h4 : b64Index (b64Char (c % 64)) = some (c % 64) := b64Index_b64Char _ (by omega)
    have ih := b64_roundtrip rest (fun x hx => h x (by simp [hx]))
    simp [b64encodeBytes, List.filterMap_cons, h1, h2, h3, h4, b64decodeSextets, ih]
    omega

theorem digitChar_toNat : ∀ d, d < 10 → (Char.ofNat (48 + d)).toNat = 48 + d := by decide

theorem digitChar_isDigit : ∀ d, d < 10 → isDigitCh (Char.ofNat (48 + d)) = true := by decide

theorem digitChar_not_space : ∀ d, d < 10 → jsSpaceCh (Char.ofNat (48 + d)) = false := by decide

theorem digitChar_ne_minus : ∀ d, d < 10 → ¬ (Char.ofNat (48 + d) = '-') := by decide

theorem digitChar_ne_plus : ∀ d, d < 10 → ¬ (Char.ofNat (48 + d) = '+') := by decide

theorem digitChar_lt256 : ∀ d, d < 10 → (Char.ofNat (48 + d)).toNat < 256 := by decide

theorem digitChar_roundtrip :
    ∀ d, d < 10 → Char.ofNat ((Char.ofNat (48 + d)).toNat) = Char.ofNat (48 + d) := by decide

theorem natDigits_lt10 (k : Nat) : ∀ d ∈ natDigits k, d < 10 := by
  induction k using Nat.strong_induction_on with
  | _ k ih =>
    by_cases h : k < 10
    · rw [natDigits, dif_pos h]
      simpa using h
    · rw [natDigits, dif_neg h]
      intro d hd
      rcases List.mem_append.mp hd with hd | hd
      · exact ih (k / 10) (Nat.div_lt_self (by omega) (by omega)) d hd
      · simp at hd
        omega

theorem natDigits_ne_nil (k : Nat) : natDigits k ≠ [] := by
  by_cases h : k < 10
  · rw [natDigits, dif_pos h]
    simp
  · rw [natDigits, dif_neg h]
    simp

theorem digitsVal_natDigits (k : Nat) :
    List.foldl (fun a d => a * 10 + d) 0 (natDigits k) = k := by
  induction k using Nat.strong_induction_on with
  | _ k ih =>
    by_cases h : k < 10
    · rw [natDigits, dif_pos h]
      simp
    · rw [natDigits, dif_neg h, List.foldl_append]
      rw [ih (k / 10) (Nat.div_lt_self (by omega) (by omega))]
      simp
      omega

theorem foldl_map_digitChar (ds : List Nat) (h : ∀ d ∈ ds, d < 10) :
    ∀ a : Nat,
      List.foldl (fun a c => a * 10 + (Char.toNat c - 48)) a
          (ds.map (fun d => Char.ofNat (48 + d)))
        = List.foldl (fun a d => a * 10 + d) a ds := by
  induction ds with
  | nil => intro a; rfl
  | cons d ds ih =>
    intro a
    have hd : d < 10 := h d (by simp)
    have ht : (Char.ofNat (48 + d)).toNat = 48 + d := digitChar_toNat d hd
    simp only [List.map_cons, List.foldl_cons, ht]
    rw [show 48 + d - 48 = d by omega]
    exact ih (fun x hx => h x (by simp [hx])) _

theorem takeWhile_all {p : Char → Bool} :
    ∀ l : List Char, (∀ c ∈ l, p c = true) → l.takeWhile p = l := by
  intro l
  induction l with
  | nil => intro; rfl
  | cons c cs ih =>
    intro h
    rw [List.takeWhile_cons, h c (by simp)]
    simp [ih (fun x hx => h x (by simp [hx]))]

theorem parseIntJS_natToString10 (k : Nat) :
    parseIntJS (natToString10 k) = some (k : Int) := by
  rcases hds : natDigits k with _ | ⟨d0, ds⟩
  · exact absurd hds (natDigits_ne_nil k)
  · have hall : ∀ d ∈ d0 :: ds, d < 10 := by
      rw [← hds]; exact natDigits_lt10 k
    have hd0 : d0 < 10 := hall d0 (by simp)
    have hdata : (natToString10 k).data
        = Char.ofNat (48 + d0) :: ds.map (fun d => Char.ofNat (48 + d)) := by
      simp [natToString10, hds]
    have hdrop : (natToString10 k).data.dropWhile jsSpaceCh
        = Char.ofNat (48 + d0) :: ds.map (fun d => Char.ofNat (48 + d)) := by
      rw [hdata, List.dropWhile_cons, digitChar_not_space d0 hd0]
      simp
    have hdigits : ∀ c ∈ Char.ofNat (48 + d0) :: ds.map (fun d => Char.ofNat (48 + d)),
        isDigitCh c = true := by
      intro c hc
      rcases List.mem_cons.mp hc with rfl | hc
      · exact digitChar_isDigit d0 hd0
      · obtain ⟨d, hd, rfl⟩ := List.mem_map.mp hc
        exact digitChar_isDigit d (hall d (by simp [hd]))
    have hparse : parseDigits (Char.ofNat (48 + d0) :: ds.map (fun d => Char.ofNat (48 + d)))
        = some (k : Nat) := by
      rw [parseDigits]
      simp only [takeWhile_all _ hdigits]
      rw [if_neg (by simp)]
      congr 1
      have : Char.ofNat (48 + d0) :: ds.map (fun d => Char.ofNat (48 + d))
          = (d0 :: ds).map (fun d => Char.ofNat (48 + d)) := by simp
      rw [digitsValC, this, foldl_map_digitChar (d0 :: ds) hall 0, ← hds]
      exact digitsVal_natDigits k
    rw [parseIntJS, hdrop]
    dsimp only
    rw [if_neg (digitChar_ne_minus d0 hd0), if_neg (digitChar_ne_plus d0 hd0), hparse]
    rfl

theorem b64decode_b64encode_digits (k : Nat) :
    b64decode (b64encode (natToString10 k)) = natToString10 k := by
  have hbytes : ∀ b ∈ bytesOfString (natToString10 k), b < 256 := by
    intro b hb
    simp only [bytesOfString, natToString10, List.map_map, List.mem_map] at hb
    obtain ⟨d, hd, rfl⟩ := hb
    exact digitChar_lt256 d (natDigits_lt10 k d hd)
  show stringOfBytes (b64decodeSextets
      ((b64encodeBytes (bytesOfString (natToString10 k))).filterMap b64Index)) = _
  rw [b64_roundtrip _ hbytes]
  show String.mk ((bytesOfString (natToString10 k)).map Char.ofNat) = _
  have : (bytesOfString (natToString10 k)).map Char.ofNat
      = (natDigits k).map (fun d => Char.ofNat (48 + d)) := by
    simp only [bytesOfString, natToString10, List.map_map]
    refine List.map_congr_left ?_
    intro d hd
    exact digitChar_roundtrip d (natDigits_lt10 k d hd)
  rw [this]
  rfl

theorem decodeCursor_encodeOffset (k : Nat) : decodeCursor (encodeOffset k) = some (k : Int) := by
  show parseIntJS (b64decode (b64encode (natToString10 k))) = _
  rw [b64decode_b64encode_digits, parseIntJS_natToString10]

theorem encodeOffset_ne_empty (k : Nat) : encodeOffset k ≠ "" := by
  intro h
  have hlist : b64encodeBytes (bytesOfString (natToString10 k)) = [] := congrArg String.data h
  have hne : bytesOfString (natToString10 k) ≠ [] := by
    simp only [bytesOfString, natToString10]
    simp [natDigits_ne_nil k]
  exact b64encodeBytes_ne_nil _ hne hlist

theorem numToStringJS_natCast (n : Nat) : numToStringJS (some ((n : Int))) = natToString10 n := by
  rw [numToStringJS, intToStringJS, if_neg (by omega : ¬ ((n : Int) < 0))]
  rfl

theorem intToStringJS_clamp (k l : Nat) :
    intToStringJS (max 0 ((k : Int) - (l : Int))) = natToString10 (k - l) := by
  have h1 : (max 0 ((k : Int) - (l : Int))).toNat = k - l := by omega
  rw [intToStringJS, if_neg (by omega : ¬ (max 0 ((k : Int) - (l : Int)) < 0)), h1]

theorem sliceIndex_natCast (len n : Nat) :
    sliceIndex len (some ((n : Int))) = min n len := by
  rw [sliceIndex, if_neg (by omega : ¬ ((n : Int) < 0))]
  rfl

/-- Behaviour of the pagination core at a resolved natural offset k that is
at most the list length: it slices from k to min (k + limit) length, sets
hasMore exactly when elements remain, and encodes the end offset into
nextCursor when it does. -/
theorem paginateCore_of_nat (tokens : List Token) (limit k : Nat) (hk : k ≤ tokens.length) :
    paginateCore tokens limit (some ((k : Int)))
      = ⟨(tokens.drop k).take (min (k + limit) tokens.length - k),
         if k + limit < tokens.length then some (encodeOffset (k + limit)) else none,
         if 0 < k then some (encodeOffset (k - limit)) else none,
         decide (k + limit < tokens.length)⟩ := by
  have hend : (some ((k : Int))).map (fun v => min (v + (limit : Int)) (tokens.length : Int))
      = some (((min (k + limit) tokens.length : Nat) : Int)) := by
    have hmap : (some ((k : Int))).map (fun v => min (v + (limit : Int)) (tokens.length : Int))
        = some (min ((k : Int) + (limit : Int)) ((tokens.length : Int))) := rfl
    rw [hmap]
    congr 1
    push_cast
    rfl
  have hs : sliceIndex tokens.length (some ((k : Int))) = k := by
    rw [sliceIndex_natCast]
    omega
  have he : sliceIndex tokens.length (some (((min (k + limit) tokens.length : Nat) : Int)))
      = min (k + limit) tokens.length := by
    rw [sliceIndex_natCast]
    omega
  have hnext : (if (decide (((min (k + limit) tokens.length : Nat) : Int)
            < (tokens.length : Int)) = true)
        then some (b64encode (numToStringJS (some (((min (k + limit) tokens.length : Nat) : Int)))))
        else none)
      = (if k + limit < tokens.length then some (encodeOffset (k + limit)) else none) := by
    by_cases h : k + limit < tokens.length
    · have hmin : min (k + limit) tokens.length = k + limit := by omega
      rw [if_pos (decide_eq_true (by omega
          : ((min (k + limit) tokens.length : Nat) : Int) < (tokens.length : Int)))]
      rw [if_pos h, numToStringJS_natCast, hmin]
      rfl
    · have hnot : ¬ (((min (k + limit) tokens.length : Nat) : Int) < (tokens.length : Int)) := by
        omega
      rw [if_neg (fun hd => hnot (of_decide_eq_true hd)), if_neg h]
  have hprev : (if (0 : Int) < (k : Int)
        then some (b64encode (intToStringJS (max 0 ((k : Int) - (limit : Int))))) else none)
      = (if 0 < k then some (encodeOffset (k - limit)) else none) := by
    by_cases h0 : 0 < k
    · rw [if_pos (by omega : (0 : Int) < (k : Int)), if_pos h0, intToStringJS_clamp]
      rfl
    · rw [if_neg (by omega : ¬ ((0 : Int) < (k : Int))), if_neg h0]
  have hbool : decide (((min (k + limit) tokens.length : Nat) : Int) < (tokens.length : Int))
      = decide (k + limit < tokens.length) := by
    by_cases h : k + limit < tokens.length
    · rw [decide_eq_true (by omega
          : ((min (k + limit) tokens.length : Nat) : Int) < (tokens.length : Int)),
        decide_eq_true h]
    · rw [decide_eq_false (by omega
          : ¬ (((min (k + limit) tokens.length : Nat) : Int) < (tokens.length : Int))),
        decide_eq_false h]
  simp only [paginateCore, hend, hs, he]
  rw [hnext, hprev, hbool]

theorem applyPagination_encodeOffset (tokens : List Token) (limit k : Nat) :
    applyPagination tokens limit (some (encodeOffset k))
      = paginateCore tokens limit (some ((k : Int))) := by
  rw [applyPagination]
  rw [if_neg (encodeOffset_ne_empty k), decodeCursor_encodeOffset]

theorem applyPagination_no_cursor (tokens : List Token) (limit : Nat) :
    applyPagination tokens limit none = paginateCore tokens limit (some ((0 : Nat) : Int)) := rfl

/-- Following pages from any cursor that resolves to offset k visits the
elements from k on, in order, and terminates with hasMore false. -/
theorem followPages_resolved (tokens : List Token) (limit : Nat) (hL : 1 ≤ limit) :
    ∀ (fuel k : Nat) (cursor : Option String),
      applyPagination tokens limit cursor = paginateCore tokens limit (some ((k : Int))) →
      k ≤ tokens.length → tokens.length - k < fuel →
      ∃ pages, followPages tokens limit fuel cursor = some (pages, false)
        ∧ pages.flatten = tokens.drop k := by
  intro fuel
  induction fuel with
  | zero =>
    intro k cursor hc hk hlt
    omega
  | succ fuel ih =>
    intro k cursor hc hk hlt
    rw [followPages, hc, paginateCore_of_nat tokens limit k hk]
    by_cases h : k + limit < tokens.length
    · simp only [if_pos h]
      obtain ⟨pages, hp, hj⟩ := ih (k + limit)
        (some (encodeOffset (k + limit)))
        (applyPagination_encodeOffset tokens limit (k + limit))
        (by omega) (by omega)
      rw [hp]
      refine ⟨(tokens.drop k).take (min (k + limit) tokens.length - k) :: pages, rfl, ?_⟩
      have hmin : min (k + limit) tokens.length = k + limit := by omega
      rw [List.flatten_cons, hj, hmin]
      rw [show k + limit - k = limit from by omega]
      have hdd : tokens.drop (k + limit) = (tokens.drop k).drop limit := by
        rw [List.drop_drop]
      rw [hdd, List.take_append_drop]
    · simp only [if_neg h]
      refine ⟨[(tokens.drop k).take (min (k + limit) tokens.length - k)], ?_, ?_⟩
      · rw [show decide (k + limit < tokens.length) = false from decide_eq_false h]
      · have hmin : min (k + limit) tokens.length = tokens.length := by omega
        rw [List.flatten_cons, List.flatten_nil, List.append_nil, hmin]
        apply List.take_of_length_le
        rw [List.length_drop]

/-- The final page of the pagination protocol is recognizable: nextCursor
is absent exactly when hasMore is false, for every cursor. -/
theorem paginateCore_nextCursor_none_iff (tokens : List Token) (limit : Nat) (si : Option Int) :
    ((paginateCore tokens limit si).nextCursor = none)
      ↔ ((paginateCore tokens limit si).hasMore = false) := by
  rcases si with _ | v
  · simp [paginateCore]
  · simp only [paginateCore]
    by_cases h : min (v + (limit : Int)) ((tokens.length : Int)) < (tokens.length : Int)
    · simp [h]
    · simp [h]

/-- Claim C3: starting with no cursor and page size at least one,
repeatedly following nextCursor visits every element exactly once in
order; the walk ends on a page whose hasMore is false, and on every page
nextCursor is absent exactly when hasMore is false. -/
theorem pagination_cursor_roundtrip (tokens : List Token) (limit : Nat) (hL : 1 ≤ limit) :
    (∃ pages, followPages tokens limit (tokens.length + 1) none = some (pages, false)
      ∧ pages.flatten = tokens) ∧
    (∀ cursor, ((applyPagination tokens limit cursor).nextCursor = none
      ↔ (applyPagination tokens limit cursor).hasMore = false)) := by
  constructor
  · obtain ⟨pages, hp, hj⟩ := followPages_resolved tokens limit hL (tokens.length + 1) 0 none
      (applyPagination_no_cursor tokens limit) (by omega) (by omega)
    exact ⟨pages, hp, by simpa using hj⟩
  · intro cursor
    exact paginateCore_nextCursor_none_iff tokens limit
      (match cursor with
       | none => some 0
       | some c => if c = "" then some 0 else decodeCursor c)

/-- Witness for claim C3 at a concrete input: three records, page size
two. -/
theorem pagination_cursor_roundtrip_witness :
    (∃ pages, followPages [tokenA3, tokenB3, tokenC3] 2
        ([tokenA3, tokenB3, tokenC3].length + 1) none = some (pages, false)
      ∧ pages.flatten = [tokenA3, tokenB3, tokenC3]) ∧
    (∀ cursor, ((applyPagination [tokenA3, tokenB3, tokenC3] 2 cursor).nextCursor = none
      ↔ (applyPagination [tokenA3, tokenB3, tokenC3] 2 cursor).hasMore = false)) :=
  pagination_cursor_roundtrip [tokenA3, tokenB3, tokenC3] 2 (by norm_num)

/-- Claim C4 fails on the code: the cursor YWJj (base64 of abc) does not
decode to an integer, parseInt yields NaN rather than throwing, the catch
branch never runs, and NaN propagates through slice: the result is an
empty page with hasMore false - not the first page of results that
offset zero would give. -/
theorem invalid_cursor_empty_page :
    (applyPagination [tokenA3, tokenB3] 1 (some "YWJj")).paginatedTokens = [] ∧
    (applyPagination [tokenA3, tokenB3] 1 (some "YWJj")).hasMore = false ∧
    (applyPagination [tokenA3, tokenB3] 1 (some "YWJj")).nextCursor = none ∧
    (applyPagination [tokenA3, tokenB3] 1 (some "YWJj")).prevCursor = none ∧
    (applyPagination [tokenA3, tokenB3] 1 none).paginatedTokens = [tokenA3] :=
  ⟨rfl, rfl, rfl, rfl, rfl⟩
